import Mathlib

/-!
Verification of the room/message persistence subsystem
(`src/communication/database.ts`) and the chat-completion handler fragment
against its specification.

The storage layer (Supabase/PostgREST over the Postgres schema created in
`databaseLoader.load`) is embedded as an explicit state: tables are
insertion-ordered lists of rows, the server clock is a natural number that
advances on every write that assigns a `created_at`, and identity columns are
counters.  Each Supabase call returns either a `PgError` (the `error` field of
the client's result object) or the new state; the `Database` methods are
translated statement by statement from the TypeScript source, including which
of them inspect the `error` field and which do not.
-/

namespace JPT

/-- A Postgres/PostgREST error object: `error.code` and `error.message`. -/
structure PgError where
  code : String
  message : String
deriving Repr, DecidableEq

/-- A JavaScript exception: either an explicit `throw new Error(msg)` or a
`TypeError` raised by a property access on `undefined`/`null`. -/
inductive JsError where
  | thrown (message : String)
  | typeError (message : String)
deriving Repr, DecidableEq

/-- A row of the `users` table (`id`, `username`, `avatar_url`,
`access_token`); `username` carries a UNIQUE constraint, `access_token` does
not. -/
structure UserRow where
  id : Nat
  username : String
  avatar_url : String
  access_token : String
deriving Repr, DecidableEq

/-- A row of the `rooms` table: `id` is the identity primary key, `name` is
UNIQUE NOT NULL, `prompt` is nullable. -/
structure RoomRow where
  id : Nat
  created_at : Nat
  name : String
  prompt : Option String
deriving Repr, DecidableEq

/-- A row of the `messages` table; `sender` embeds the `"from"` column
(references `users(id)`), `room` references `rooms(id)`. -/
structure MessageRow where
  id : Nat
  created_at : Nat
  message : String
  sender : Nat
  room : Nat
deriving Repr, DecidableEq

/-- The storage state: the three tables in insertion order, the identity
counters for the storage-assigned ids, and the server clock used for
`created_at`. -/
structure Storage where
  users : List UserRow
  rooms : List RoomRow
  messages : List MessageRow
  nextRoomId : Nat
  nextMsgId : Nat
  clock : Nat
deriving Repr, DecidableEq

/-- `insert into rooms (name, prompt)` under the UNIQUE constraint on
`name`: a duplicate name fails with Postgres error code 23505
(unique violation); otherwise the row is appended with a storage-assigned id
and timestamp. -/
def insertRoomRaw (s : Storage) (name : String) (prompt : Option String) :
    Except PgError Storage :=
  if s.rooms.any (fun r => r.name == name) then
    .error ⟨"23505", "duplicate key value violates unique constraint rooms_name_key"⟩
  else
    .ok { s with
      rooms := s.rooms ++ [⟨s.nextRoomId, s.clock, name, prompt⟩],
      nextRoomId := s.nextRoomId + 1,
      clock := s.clock + 1 }

/-- `upsert` on `users` with the primary key `id` as conflict target
(supabase v1 `merge-duplicates`): fails with 23505 when another row (a
different `id`) already holds the requested `username` (UNIQUE constraint);
otherwise replaces the row with the same `id` in place, or appends a fresh
row.  No constraint mentions `access_token`. -/
def upsertUserRaw (s : Storage) (row : UserRow) : Except PgError Storage :=
  if s.users.any (fun u => u.id != row.id && u.username == row.username) then
    .error ⟨"23505", "duplicate key value violates unique constraint users_username_key"⟩
  else if s.users.any (fun u => u.id == row.id) then
    .ok { s with users := s.users.map (fun u => if u.id == row.id then row else u) }
  else
    .ok { s with users := s.users ++ [row] }

/-- `insert into messages (message, "from", room)`: the two foreign keys are
checked by storage (error code 23503 on violation); otherwise the row is
appended with storage-assigned identity and timestamp. -/
def insertMessageRaw (s : Storage) (text : String) (roomId userId : Nat) :
    Except PgError Storage :=
  if s.rooms.any (fun r => r.id == roomId) = false then
    .error ⟨"23503", "insert on table messages violates foreign key constraint messages_room_fkey"⟩
  else if s.users.any (fun u => u.id == userId) = false then
    .error ⟨"23503", "insert on table messages violates foreign key constraint messages_from_fkey"⟩
  else
    .ok { s with
      messages := s.messages ++ [⟨s.nextMsgId, s.clock, text, userId, roomId⟩],
      nextMsgId := s.nextMsgId + 1,
      clock := s.clock + 1 }

/-- `from("rooms").select(...).eq("name", name)`: rows in table order. -/
def selectRoomsByName (s : Storage) (name : String) : List RoomRow :=
  s.rooms.filter (fun r => r.name == name)

/-- `from("rooms").select(...).eq("id", roomId)`: rows in table order. -/
def selectRoomsById (s : Storage) (roomId : Nat) : List RoomRow :=
  s.rooms.filter (fun r => r.id == roomId)

/-- `from("users").select(...).eq("access_token", tok)`: rows in table
order. -/
def selectUsersByToken (s : Storage) (tok : String) : List UserRow :=
  s.users.filter (fun u => u.access_token == tok)

/-- `from("messages").select(...).eq("room", roomId)`: rows in table
order. -/
def selectMessagesByRoom (s : Storage) (roomId : Nat) : List MessageRow :=
  s.messages.filter (fun m => m.room == roomId)

/-- PostgREST `.single()`: succeeds exactly on a one-row result, otherwise
sets the error `PGRST116`. -/
def singleRow {α : Type} (rows : List α) : Except PgError α :=
  match rows with
  | [r] => .ok r
  | _ => .error ⟨"PGRST116", "JSON object requested, multiple (or no) rows returned"⟩

/-- The `DatabaseUser` interface of `database.ts`: exactly the three exposed
fields. -/
structure DatabaseUser where
  userId : Nat
  userName : String
  avatarUrl : String
deriving Repr, DecidableEq

/-- `Database.insertUser`: upsert the row and `throw new Error(error.message)`
on a storage error. -/
def Database.insertUser (s : Storage) (user : DatabaseUser) (accessToken : String) :
    Except JsError Storage :=
  match upsertUserRaw s ⟨user.userId, user.userName, user.avatarUrl, accessToken⟩ with
  | .error e => .error (.thrown e.message)
  | .ok s' => .ok s'

/-- `Database.getUserByAccessToken`: select by token, return `undefined` on an
empty result, else the first row projected to `DatabaseUser`. -/
def Database.getUserByAccessToken (s : Storage) (accessToken : String) :
    Option DatabaseUser :=
  match selectUsersByToken s accessToken with
  | [] => none
  | u :: _ => some ⟨u.id, u.username, u.avatar_url⟩

/-- `Database.getUserByAccessTokenOrThrow`. -/
def Database.getUserByAccessTokenOrThrow (s : Storage) (accessToken : String) :
    Except JsError DatabaseUser :=
  match Database.getUserByAccessToken s accessToken with
  | none => .error (.thrown "Could not find user with access token.")
  | some u => .ok u

/-- `Database.getRoomName`: `data[0].name` on the filtered rows — an empty
result makes the property access throw a `TypeError`. -/
def Database.getRoomName (s : Storage) (roomId : Nat) : Except JsError String :=
  match selectRoomsById s roomId with
  | [] => .error (.typeError "Cannot read properties of undefined")
  | r :: _ => .ok r.name

/-- `Database.getRoomNamePrompt`: `.single()` then `{ name, prompt }`. -/
def Database.getRoomNamePrompt (s : Storage) (roomId : Nat) :
    Except JsError (String × Option String) :=
  match singleRow (selectRoomsById s roomId) with
  | .error e => .error (.thrown e.message)
  | .ok r => .ok (r.name, r.prompt)

/-- `Database.getRoomPrompt`: `.single()` then `data?.prompt`. -/
def Database.getRoomPrompt (s : Storage) (roomId : Nat) :
    Except JsError (Option String) :=
  match singleRow (selectRoomsById s roomId) with
  | .error e => .error (.thrown e.message)
  | .ok r => .ok r.prompt

/-- The re-read step of `ensureRoom` (lines 131-141 of `database.ts`): select
by name and return `get.data[0].id`, or `undefined` when no row came back (the
final `return` is commented out in the source). -/
def ensureRoomReadBack (s : Storage) (name : String) :
    Except JsError (Option Nat × Storage) :=
  match selectRoomsByName s name with
  | r :: _ => .ok (some r.id, s)
  | [] => .ok (none, s)

/-- Lines 126-141 of `database.ts`: the reaction of `ensureRoom` to the insert
outcome.  An insert error whose code is not `23505` is re-thrown; a `23505`
error is suppressed and the room is re-read by name, as it is after a
successful insert. -/
def ensureRoomAfterInsert (s : Storage) (name : String)
    (insertOutcome : Except PgError Storage) :
    Except JsError (Option Nat × Storage) :=
  match insertOutcome with
  | .error e =>
    if e.code ≠ "23505" then .error (.thrown e.message)
    else ensureRoomReadBack s name
  | .ok s' => ensureRoomReadBack s' name

/-- `Database.ensureRoom`: insert `{ name, prompt }` (plain insert,
`upsert: false`), then handle the outcome. -/
def Database.ensureRoom (s : Storage) (name prompt : String) :
    Except JsError (Option Nat × Storage) :=
  ensureRoomAfterInsert s name (insertRoomRaw s name (some prompt))

/-- `Database.insertMessage`: the supabase insert result is not inspected by
the source — the method returns normally whether or not the write errored, and
it cannot raise a storage failure. -/
def Database.insertMessage (s : Storage) (text : String) (roomId userId : Nat) :
    Storage :=
  match insertMessageRaw s text roomId userId with
  | .error _ => s
  | .ok s' => s'

/-- The sender object of a `MessageView` (`{ name, avatarUrl }`). -/
structure MessageSender where
  name : String
  avatarUrl : String
deriving Repr, DecidableEq

/-- One element of the result of `getRoomMessages`: `{ message, from:
{ name, avatarUrl }, createdAt }`; the field `sender` embeds `from`. -/
structure MessageView where
  message : String
  sender : MessageSender
  createdAt : Nat
deriving Repr, DecidableEq

/-- The `data.map(...)` body of `getRoomMessages`: each row's embedded
`from(username,avatar_url)` join is resolved against the `users` table; a
missing author would make `m.from.username` throw, so the whole mapping is
`Option`-valued. -/
def joinAll (s : Storage) : List MessageRow → Option (List MessageView)
  | [] => some []
  | m :: ms =>
    match s.users.find? (fun u => u.id == m.sender), joinAll s ms with
    | some u, some vs =>
      some (⟨m.message, ⟨u.username, u.avatar_url⟩, m.created_at⟩ :: vs)
    | _, _ => none

/-- `Database.getRoomMessages`: select the room's messages with the author
joined in, in table order. -/
def Database.getRoomMessages (s : Storage) (roomId : Nat) :
    Except JsError (List MessageView) :=
  match joinAll s (selectMessagesByRoom s roomId) with
  | some l => .ok l
  | none => .error (.typeError "Cannot read properties of null")

/-- `max(messages.created_at)` for one room: the aggregate of the
`rooms_with_activity` view. -/
def lastMessageAt (s : Storage) (roomId : Nat) : Option Nat :=
  ((selectMessagesByRoom s roomId).map (fun m => m.created_at)).max?

/-- The comparator of the view's `order by last_message_at desc nulls last`:
`activityLe a b` holds when `a` may appear before `b`. -/
def activityLe (a b : Option Nat) : Bool :=
  match a, b with
  | some x, some y => decide (y ≤ x)
  | some _, none => true
  | none, some _ => false
  | none, none => true

/-- A row of the `rooms_with_activity` view. -/
structure RoomActivityRow where
  id : Nat
  name : String
  last_message_at : Option Nat
deriving Repr, DecidableEq

/-- Insert one row into a list ordered by `activityLe` on
`last_message_at`. -/
def insertByActivity (x : RoomActivityRow) :
    List RoomActivityRow → List RoomActivityRow
  | [] => [x]
  | y :: ys =>
    if activityLe x.last_message_at y.last_message_at then x :: y :: ys
    else y :: insertByActivity x ys

/-- Sort rows by `last_message_at desc nulls last`. -/
def sortByActivity : List RoomActivityRow → List RoomActivityRow
  | [] => []
  | x :: xs => insertByActivity x (sortByActivity xs)

/-- The `rooms_with_activity` view: every room with its aggregated
`last_message_at`, ordered descending with nulls last. -/
def roomsWithActivity (s : Storage) : List RoomActivityRow :=
  sortByActivity (s.rooms.map (fun r => ⟨r.id, r.name, lastMessageAt s r.id⟩))

/-- One element of the result of `getRooms`. -/
structure RoomListing where
  roomId : Nat
  name : String
  lastMessageAt : Option Nat
deriving Repr, DecidableEq

/-- `Database.getRooms`: read the view and rename the columns. -/
def Database.getRooms (s : Storage) : List RoomListing :=
  (roomsWithActivity s).map (fun d => ⟨d.id, d.name, d.last_message_at⟩)

/-- One entry of the `messages` array sent to `createChatCompletion`:
`{ role, content }`. -/
structure ChatRequestMessage where
  role : String
  content : String
deriving Repr, DecidableEq

/-- One element of the provider response's `choices` array. -/
structure ChatChoice where
  message : ChatRequestMessage
deriving Repr, DecidableEq

/-- The provider response consumed by the handler: its `choices` array. -/
structure ChatCompletionResponse where
  choices : List ChatChoice
deriving Repr, DecidableEq

/-- The `messages` array built in `handler.GET` for `createChatCompletion`
(part_000 lines 18-25), generalised over the two content strings: a
system-role entry followed by a user-role entry. -/
def buildRequest (systemContent userContent : String) : List ChatRequestMessage :=
  [⟨"system", systemContent⟩, ⟨"user", userContent⟩]

/-- The hard-coded system content of `handler.GET` (`SystemRoleContenet`,
part_000 line 15): the handler passes it as the system entry of the request. -/
def SystemRoleContenet : String :=
  "شات جي بي تي  انت تفهم جميع اللغاتوفي جميع المجالاتاي نص اعطيته لك افهمه وعالجه وورد على اي إستفسار لك رد باللهجة المغربية يمكنك كتابة كلمات تقنية لكن اكتبها بالدارجة المغربية، ركز الرد بالدارجة المغربية"

/-- The hard-coded user content of `handler.GET` (part_000 line 17). -/
def userContent : String := "jock for animal dog"

/-- `choices[0]?.message.content` (part_000 lines 29-31): optional chaining
turns an empty `choices` array into `undefined` instead of an exception. -/
def extractReply (r : ChatCompletionResponse) : Option String :=
  match r.choices with
  | [] => none
  | c :: _ => some c.message.content

/-- The value the handler responds with: `new Response(text, { status: 200 })`
(part_000 lines 34-36) — the extracted text (possibly absent) and the HTTP
status, which is 200 unconditionally. -/
def handlerRespond (r : ChatCompletionResponse) : Option String × Nat :=
  (extractReply r, 200)

/-- The storage state produced by `databaseLoader.load` on a fresh database:
empty tables except for the idempotent seed row `rooms(id=0, name='Lobby')`
(whose `prompt` is null). -/
def initStorage : Storage :=
  { users := [], rooms := [⟨0, 0, "Lobby", none⟩], messages := [],
    nextRoomId := 1, nextMsgId := 1, clock := 1 }

/-- One atomic storage write, as serialized by the database.  Concurrent
callers interleave these statements in commit order; `Database.ensureRoom` is
the `insertRoom` statement followed — possibly after other callers'
statements — by the `roomIdOf` read-back. -/
inductive Op where
  | insertRoom (name : String) (prompt : Option String)
  | upsertUser (row : UserRow)
  | insertMessage (text : String) (roomId userId : Nat)

/-- Execute one atomic write.  A failed write leaves the state unchanged (the
error goes back to whichever caller issued the statement). -/
def applyOp (s : Storage) : Op → Storage
  | .insertRoom name prompt =>
    match insertRoomRaw s name prompt with
    | .ok s' => s'
    | .error _ => s
  | .upsertUser row =>
    match upsertUserRaw s row with
    | .ok s' => s'
    | .error _ => s
  | .insertMessage text roomId userId => Database.insertMessage s text roomId userId

/-- Execute a sequence of atomic writes in commit order. -/
def applyOps (s : Storage) (ops : List Op) : Storage := ops.foldl applyOp s

/-- The read-back statement of `ensureRoom`: `get.data[0].id` of the select by
name, or `undefined` when no row matches. -/
def roomIdOf (s : Storage) (name : String) : Option Nat :=
  match selectRoomsByName s name with
  | [] => none
  | r :: _ => some r.id

/-- The UNIQUE constraint on `rooms.name`, as a state invariant: no two room
rows share a name. -/
def RoomsUnique (s : Storage) : Prop :=
  s.rooms.Pairwise (fun a b => a.name ≠ b.name)

/-- The storage guarantee behind message ordering: rows of `messages` are in
non-decreasing `created_at` order and every stored timestamp is in the past of
the server clock. -/
def MessagesOrdered (s : Storage) : Prop :=
  s.messages.Pairwise (fun a b => a.created_at ≤ b.created_at) ∧
  ∀ m ∈ s.messages, m.created_at < s.clock

/-- A sequence of `Database.insertMessage` calls targeting one room, in
order: each post is a `(text, userId)` pair. -/
def postMessages (s : Storage) (roomId : Nat) (posts : List (String × Nat)) : Storage :=
  posts.foldl (fun s p => Database.insertMessage s p.1 roomId p.2) s

/-- A small concrete state used to instantiate theorems: two users who share
an access token, the seed room plus one further room, no messages yet. -/
def sampleStorage : Storage :=
  { users := [⟨1, "alice", "avatar-a", "tok"⟩, ⟨2, "bob", "avatar-b", "tok"⟩],
    rooms := [⟨0, 0, "Lobby", none⟩, ⟨1, 0, "general", some "be nice"⟩],
    messages := [], nextRoomId := 2, nextMsgId := 1, clock := 1 }

/-- A concrete state with message traffic: the Lobby's latest message is at
time 3, room `general`'s at time 5, and room `quiet` has none. -/
def busyStorage : Storage :=
  { users := [⟨1, "alice", "avatar-a", "tok"⟩],
    rooms := [⟨0, 0, "Lobby", none⟩, ⟨1, 0, "general", some "p"⟩, ⟨2, 0, "quiet", none⟩],
    messages := [⟨1, 3, "hi", 1, 0⟩, ⟨2, 5, "yo", 1, 1⟩],
    nextRoomId := 3, nextMsgId := 3, clock := 6 }

/-- Claim C7: for every prompt and user message the request carries exactly
two instructions in order — first a system-role instruction with the prompt
verbatim, second a user-role instruction with the message text; an empty
prompt still yields the (empty) system instruction rather than omitting
it. -/
theorem buildRequest_shape (prompt userMsg : String) :
    (buildRequest prompt userMsg).length = 2 ∧
    buildRequest prompt userMsg = [⟨"system", prompt⟩, ⟨"user", userMsg⟩] ∧
    buildRequest "" userMsg = [⟨"system", ""⟩, ⟨"user", userMsg⟩] :=
  ⟨rfl, rfl, rfl⟩

/-- Claim C5, counterexample: on a provider response with zero choices the
handler does not fail at all — extraction yields an absent text and the
handler still answers with HTTP status 200, indistinguishable in kind from a
successful reply. -/
theorem extractReply_empty_no_failure :
    extractReply ⟨[]⟩ = none ∧ handlerRespond ⟨[]⟩ = (none, 200) :=
  ⟨rfl, rfl⟩

/-- Claim C5, amended: with zero choices the extraction produces an absent
text and the handler responds with status 200 (there is no distinct
`EmptyCompletion` failure); with at least one choice it returns exactly the
first choice's message content, unmodified. -/
theorem extractReply_spec (r : ChatCompletionResponse) :
    (r.choices = [] → extractReply r = none ∧ handlerRespond r = (none, 200)) ∧
    (∀ c rest, r.choices = c :: rest → extractReply r = some c.message.content) := by
  constructor
  · intro h
    constructor
    · unfold extractReply
      rw [h]
    · unfold handlerRespond extractReply
      rw [h]
  · intro c rest h
    unfold extractReply
    rw [h]

/-- Witness for `extractReply_spec` at a one-choice response and at the empty
response. -/
theorem extractReply_spec_witness :
    (⟨[⟨⟨"assistant", "hello"⟩⟩]⟩ : ChatCompletionResponse).choices =
      ⟨⟨"assistant", "hello"⟩⟩ :: [] ∧
    extractReply ⟨[⟨⟨"assistant", "hello"⟩⟩]⟩ = some "hello" ∧
    (⟨[]⟩ : ChatCompletionResponse).choices = [] ∧
    extractReply ⟨[]⟩ = none :=
  ⟨rfl, (extractReply_spec ⟨[⟨⟨"assistant", "hello"⟩⟩]⟩).2 _ _ rfl, rfl,
    ((extractReply_spec ⟨[]⟩).1 rfl).1⟩

/-- Claim C6: an insert failure of `ensureRoom` with the uniqueness-violation
code 23505 is suppressed and the operation proceeds to re-read the room by
name; any other insert failure surfaces to the caller as the thrown error. -/
theorem ensureRoom_insert_error_handling (s : Storage) (name : String) (e : PgError) :
    (e.code = "23505" →
      ensureRoomAfterInsert s name (.error e) = ensureRoomReadBack s name) ∧
    (e.code ≠ "23505" →
      ensureRoomAfterInsert s name (.error e) = .error (.thrown e.message)) := by
  constructor
  · intro h
    unfold ensureRoomAfterInsert
    simp [h]
  · intro h
    unfold ensureRoomAfterInsert
    simp [h]

/-- Witness for `ensureRoom_insert_error_handling`: a 23505 error is
suppressed, a 42000 error surfaces. -/
theorem ensureRoom_insert_error_handling_witness :
    ("23505" : String) = "23505" ∧ ("42000" : String) ≠ "23505" ∧
    ensureRoomAfterInsert initStorage "general" (.error ⟨"23505", "dup"⟩) =
      ensureRoomReadBack initStorage "general" ∧
    ensureRoomAfterInsert initStorage "general" (.error ⟨"42000", "boom"⟩) =
      .error (.thrown "boom") :=
  ⟨rfl, by decide,
    (ensureRoom_insert_error_handling initStorage "general" ⟨"23505", "dup"⟩).1 rfl,
    (ensureRoom_insert_error_handling initStorage "general" ⟨"42000", "boom"⟩).2 (by decide)⟩

/-- Claim C4: when no room row matches `roomId`, each of `getRoomName`,
`getRoomNamePrompt` and `getRoomPrompt` fails; when exactly one row matches,
each succeeds and returns the stored name/prompt (the prompt possibly
absent). -/
theorem roomLookups_spec (s : Storage) (roomId : Nat) :
    (selectRoomsById s roomId = [] →
      (∃ e, Database.getRoomName s roomId = .error e) ∧
      (∃ e, Database.getRoomNamePrompt s roomId = .error e) ∧
      (∃ e, Database.getRoomPrompt s roomId = .error e)) ∧
    (∀ r, selectRoomsById s roomId = [r] →
      Database.getRoomName s roomId = .ok r.name ∧
      Database.getRoomNamePrompt s roomId = .ok (r.name, r.prompt) ∧
      Database.getRoomPrompt s roomId = .ok r.prompt) := by
  constructor
  · intro h
    refine ⟨⟨.typeError "Cannot read properties of undefined", ?_⟩,
      ⟨.thrown "JSON object requested, multiple (or no) rows returned", ?_⟩,
      ⟨.thrown "JSON object requested, multiple (or no) rows returned", ?_⟩⟩
    · unfold Database.getRoomName
      rw [h]
    · unfold Database.getRoomNamePrompt singleRow
      rw [h]
    · unfold Database.getRoomPrompt singleRow
      rw [h]
  · intro r h
    refine ⟨?_, ?_, ?_⟩
    · unfold Database.getRoomName
      rw [h]
    · unfold Database.getRoomNamePrompt singleRow
      rw [h]
    · unfold Database.getRoomPrompt singleRow
      rw [h]

/-- Witness for `roomLookups_spec`: at `initStorage`, room 5 does not exist
and every lookup fails; room 0 is the Lobby and every lookup succeeds. -/
theorem roomLookups_spec_witness :
    selectRoomsById initStorage 5 = [] ∧
    selectRoomsById initStorage 0 = [⟨0, 0, "Lobby", none⟩] ∧
    (∃ e, Database.getRoomName initStorage 5 = .error e) ∧
    (∃ e, Database.getRoomPrompt initStorage 5 = .error e) ∧
    Database.getRoomName initStorage 0 = .ok "Lobby" ∧
    Database.getRoomNamePrompt initStorage 0 = .ok ("Lobby", none) ∧
    Database.getRoomPrompt initStorage 0 = .ok none :=
  ⟨rfl, rfl,
    ((roomLookups_spec initStorage 5).1 rfl).1,
    ((roomLookups_spec initStorage 5).1 rfl).2.2,
    ((roomLookups_spec initStorage 0).2 ⟨0, 0, "Lobby", none⟩ rfl).1,
    ((roomLookups_spec initStorage 0).2 ⟨0, 0, "Lobby", none⟩ rfl).2.1,
    ((roomLookups_spec initStorage 0).2 ⟨0, 0, "Lobby", none⟩ rfl).2.2⟩

/-- Claim C2, counterexample: at `initStorage` user 1 does not exist, so the
underlying write fails with a foreign-key violation (code 23503) — yet
`insertMessage` returns normally with the state unchanged; its return type
cannot even signal a storage failure, because the source never inspects the
insert's `error` field. -/
theorem insertMessage_swallows_error :
    insertMessageRaw initStorage "hi" 0 1 =
      .error ⟨"23503",
        "insert on table messages violates foreign key constraint messages_from_fkey"⟩ ∧
    Database.insertMessage initStorage "hi" 0 1 = initStorage :=
  ⟨rfl, rfl⟩

/-- Claim C2, amended: when the underlying write succeeds, `insertMessage`
appends the message with storage-assigned identity and timestamp; when the
underlying write errors (including a foreign-key violation on `roomId` or
`userId`), the error is silently discarded — the call still returns
successfully and the message is simply not stored. -/
theorem insertMessage_spec (s : Storage) (text : String) (roomId userId : Nat) :
    (∀ s', insertMessageRaw s text roomId userId = .ok s' →
      Database.insertMessage s text roomId userId = s' ∧
      s'.messages = s.messages ++ [⟨s.nextMsgId, s.clock, text, userId, roomId⟩]) ∧
    (∀ e, insertMessageRaw s text roomId userId = .error e →
      Database.insertMessage s text roomId userId = s) := by
  constructor
  · intro s' h
    constructor
    · unfold Database.insertMessage
      rw [h]
    · unfold insertMessageRaw at h
      split_ifs at h with h1 h2
      · simp only [Except.ok.injEq] at h
        rw [← h]
  · intro e h
    unfold Database.insertMessage
    rw [h]

/-- Witness for `insertMessage_spec`: a successful insert into `sampleStorage`
appends the row, and the failing insert at `initStorage` returns the state
unchanged. -/
theorem insertMessage_spec_witness :
    Database.insertMessage sampleStorage "hi" 1 1 =
      { sampleStorage with
        messages := [⟨1, 1, "hi", 1, 1⟩], nextMsgId := 2, clock := 2 } ∧
    Database.insertMessage initStorage "hi" 0 1 = initStorage :=
  ⟨((insertMessage_spec sampleStorage "hi" 1 1).1 _ rfl).1,
    (insertMessage_spec initStorage "hi" 0 1).2 _ rfl⟩

/-- Claim C10: nothing in storage constrains `access_token` — an upsert can
only fail through the UNIQUE constraint on `username` — and when several user
rows carry the same token, `getUserByAccessToken` returns the first matching
row in storage order, projected to exactly `userId`, `userName` and
`avatarUrl`. -/
theorem getUserByAccessToken_spec (s : Storage) (tok : String) :
    (∀ row : UserRow,
      (∃ e, upsertUserRaw s row = .error e) ↔
        ∃ u ∈ s.users, u.id ≠ row.id ∧ u.username = row.username) ∧
    (∀ u rest, selectUsersByToken s tok = u :: rest →
      Database.getUserByAccessToken s tok = some ⟨u.id, u.username, u.avatar_url⟩) := by
  constructor
  · intro row
    unfold upsertUserRaw
    by_cases h : s.users.any (fun u => u.id != row.id && u.username == row.username) = true
    · simp only [h, if_true]
      constructor
      · intro _
        rcases List.any_eq_true.mp h with ⟨u, hu, hcond⟩
        rw [Bool.and_eq_true, bne_iff_ne, beq_iff_eq] at hcond
        exact ⟨u, hu, hcond.1, hcond.2⟩
      · intro _
        exact ⟨_, rfl⟩
    · rw [Bool.not_eq_true] at h
      have h' : ¬ ((s.users.any fun u => u.id != row.id && u.username == row.username) = true) := by
        rw [h]
        simp
      constructor
      · intro hex
        exfalso
        rcases hex with ⟨e, he⟩
        rw [if_neg h'] at he
        by_cases h2 : (s.users.any fun u => u.id == row.id) = true
        · rw [if_pos h2] at he
          exact Except.noConfusion he
        · rw [if_neg h2] at he
          exact Except.noConfusion he
      · intro hex
        exfalso
        rcases hex with ⟨u, hu, hid, hname⟩
        have := List.any_eq_false.mp h u hu
        rw [Bool.and_eq_true, bne_iff_ne, beq_iff_eq] at this
        exact this ⟨hid, hname⟩
  · intro u rest h
    unfold Database.getUserByAccessToken
    rw [h]

/-- Witness for `getUserByAccessToken_spec`: in `sampleStorage` both users
carry the token `"tok"`; the lookup returns the first of them, and an upsert
whose username is fresh cannot fail even though its token collides. -/
theorem getUserByAccessToken_spec_witness :
    selectUsersByToken sampleStorage "tok" =
      ⟨1, "alice", "avatar-a", "tok"⟩ :: [⟨2, "bob", "avatar-b", "tok"⟩] ∧
    Database.getUserByAccessToken sampleStorage "tok" =
      some ⟨1, "alice", "avatar-a"⟩ ∧
    ((∃ e, upsertUserRaw sampleStorage ⟨3, "carol", "avatar-c", "tok"⟩ = .error e) ↔
      ∃ u ∈ sampleStorage.users, u.id ≠ 3 ∧ u.username = "carol") :=
  ⟨rfl,
    (getUserByAccessToken_spec sampleStorage "tok").2 _ _ rfl,
    (getUserByAccessToken_spec sampleStorage "tok").1 ⟨3, "carol", "avatar-c", "tok"⟩⟩

theorem length_filter_le_one {α : Type} {l : List α} {p : α → Bool}
    (h : l.Pairwise (fun a b => ¬(p a = true ∧ p b = true))) :
    (l.filter p).length ≤ 1 := by
  induction l with
  | nil => simp
  | cons a t ih =>
    rw [List.pairwise_cons] at h
    by_cases hpa : p a = true
    · have ht : t.filter p = [] := by
        rw [List.filter_eq_nil_iff]
        intro b hb hpb
        exact h.1 b hb ⟨hpa, hpb⟩
      rw [List.filter_cons_of_pos hpa, ht]
      simp
    · rw [List.filter_cons_of_neg hpa]
      exact ih h.2

theorem filter_eq_singleton_of_mem {α : Type} {l : List α} {p : α → Bool} {w : α}
    (hlen : (l.filter p).length ≤ 1) (hw : w ∈ l) (hpw : p w = true) :
    l.filter p = [w] := by
  have hmem : w ∈ l.filter p := List.mem_filter.mpr ⟨hw, hpw⟩
  cases hl : l.filter p with
  | nil =>
    rw [hl] at hmem
    cases hmem
  | cons x t =>
    cases t with
    | nil =>
      rw [hl] at hmem
      have hwx : w = x := by simpa using hmem
      rw [hwx]
    | cons y t2 =>
      exfalso
      rw [hl] at hlen
      simp at hlen

theorem filter_map_replace (l : List UserRow) (row : UserRow)
    (hpk : l.Pairwise (fun u v => u.id ≠ v.id))
    (hex : ∃ u ∈ l, u.id = row.id) :
    ((l.map fun u => if u.id == row.id then row else u).filter
      fun u => u.id == row.id) = [row] := by
  induction l with
  | nil =>
    rcases hex with ⟨u, hu, _⟩
    cases hu
  | cons a t ih =>
    rw [List.pairwise_cons] at hpk
    by_cases ha : a.id = row.id
    · have ht : ∀ u ∈ t, ¬(u.id = row.id) := by
        intro u hu h
        exact hpk.1 u hu (by rw [ha, h])
      have htf : ((t.map fun u => if u.id == row.id then row else u).filter
          fun u => u.id == row.id) = [] := by
        rw [List.filter_eq_nil_iff]
        intro b hb
        rcases List.mem_map.mp hb with ⟨u, hu, hbu⟩
        rw [if_neg (by rw [beq_iff_eq]; exact ht u hu)] at hbu
        rw [← hbu, beq_iff_eq]
        exact ht u hu
      rw [List.map_cons, if_pos (by rw [beq_iff_eq]; exact ha),
        List.filter_cons_of_pos (by rw [beq_iff_eq]), htf]
    · have hex' : ∃ u ∈ t, u.id = row.id := by
        rcases hex with ⟨u, hu, hid⟩
        rcases List.mem_cons.mp hu with rfl | hu'
        · exact absurd hid ha
        · exact ⟨u, hu', hid⟩
      rw [List.map_cons, if_neg (by rw [beq_iff_eq]; exact ha),
        List.filter_cons_of_neg (by rw [beq_iff_eq]; exact ha)]
      exact ih hpk.2 hex'

theorem upsertUser_step (s : Storage) (row : UserRow)
    (hpk : s.users.Pairwise (fun u v => u.id ≠ v.id))
    (hname : ∀ u ∈ s.users, u.id ≠ row.id → u.username ≠ row.username) :
    ∃ s', upsertUserRaw s row = .ok s' ∧
      s'.users.filter (fun u => u.id == row.id) = [row] ∧
      s'.users.Pairwise (fun u v => u.id ≠ v.id) ∧
      (∀ u ∈ s'.users, u.id ≠ row.id → u ∈ s.users) := by
  have hguard : ¬ ((s.users.any fun u => u.id != row.id && u.username == row.username) = true) := by
    rw [List.any_eq_true]
    rintro ⟨u, hu, hcond⟩
    rw [Bool.and_eq_true, bne_iff_ne, beq_iff_eq] at hcond
    exact hname u hu hcond.1 hcond.2
  unfold upsertUserRaw
  rw [if_neg hguard]
  by_cases hex : (s.users.any fun u => u.id == row.id) = true
  · rw [if_pos hex]
    have hid : ∀ u : UserRow, ((if u.id == row.id then row else u).id) = u.id := by
      intro u
      by_cases h : u.id = row.id
      · rw [if_pos (by rw [beq_iff_eq]; exact h), h]
      · rw [if_neg (by rw [beq_iff_eq]; exact h)]
    refine ⟨_, rfl, ?_, ?_, ?_⟩
    · apply filter_map_replace _ _ hpk
      rcases List.any_eq_true.mp hex with ⟨u, hu, hcond⟩
      exact ⟨u, hu, beq_iff_eq.mp hcond⟩
    · rw [List.pairwise_map]
      refine List.Pairwise.imp ?_ hpk
      intro a b h
      rw [hid a, hid b]
      exact h
    · intro u hu hne
      rcases List.mem_map.mp hu with ⟨v, hv, hvu⟩
      by_cases h : v.id = row.id
      · rw [if_pos (by rw [beq_iff_eq]; exact h)] at hvu
        rw [← hvu] at hne
        exact absurd rfl hne
      · rw [if_neg (by rw [beq_iff_eq]; exact h)] at hvu
        rw [← hvu]
        exact hv
  · rw [if_neg hex]
    have hf : (s.users.any fun u => u.id == row.id) = false := by
      rcases Bool.eq_false_or_eq_true (s.users.any fun u => u.id == row.id) with h | h
      · exact absurd h hex
      · exact h
    have hnone : ∀ u ∈ s.users, u.id ≠ row.id := by
      intro u hu h
      exact List.any_eq_false.mp hf u hu (beq_iff_eq.mpr h)
    refine ⟨_, rfl, ?_, ?_, ?_⟩
    · rw [List.filter_append]
      have h1 : s.users.filter (fun u => u.id == row.id) = [] := by
        rw [List.filter_eq_nil_iff]
        intro u hu
        rw [beq_iff_eq]
        exact hnone u hu
      rw [h1, List.filter_cons_of_pos (by rw [beq_iff_eq])]
      rfl
    · rw [List.pairwise_append]
      refine ⟨hpk, List.pairwise_singleton _ _, ?_⟩
      intro a ha b hb
      simp only [List.mem_singleton] at hb
      rw [hb]
      exact hnone a ha
    · intro u hu hne
      rcases List.mem_append.mp hu with h | h
      · exact h
      · simp only [List.mem_singleton] at h
        rw [h] at hne
        exact absurd rfl hne

/-- Claim C9: upserting the same `userId` twice (with possibly different
name, avatar and access token) succeeds and leaves exactly one `users` row for
that id, carrying the values of the latest upsert — last-write-wins keyed on
`userId`. -/
theorem insertUser_last_write_wins (s : Storage) (uid : Nat)
    (n₁ a₁ t₁ n₂ a₂ t₂ : String)
    (hpk : s.users.Pairwise (fun u v => u.id ≠ v.id))
    (h₁ : ∀ u ∈ s.users, u.id ≠ uid → u.username ≠ n₁)
    (h₂ : ∀ u ∈ s.users, u.id ≠ uid → u.username ≠ n₂) :
    ∃ s₁ s₂, Database.insertUser s ⟨uid, n₁, a₁⟩ t₁ = .ok s₁ ∧
      Database.insertUser s₁ ⟨uid, n₂, a₂⟩ t₂ = .ok s₂ ∧
      s₂.users.filter (fun u => u.id == uid) = [⟨uid, n₂, a₂, t₂⟩] := by
  obtain ⟨s₁, hraw₁, hfilter₁, hpk₁, hmem₁⟩ := upsertUser_step s ⟨uid, n₁, a₁, t₁⟩ hpk h₁
  have h₂' : ∀ u ∈ s₁.users, u.id ≠ uid → u.username ≠ n₂ := by
    intro u hu hne
    exact h₂ u (hmem₁ u hu hne) hne
  obtain ⟨s₂, hraw₂, hfilter₂, hpk₂, hmem₂⟩ := upsertUser_step s₁ ⟨uid, n₂, a₂, t₂⟩ hpk₁ h₂'
  refine ⟨s₁, s₂, ?_, ?_, hfilter₂⟩
  · unfold Database.insertUser
    rw [hraw₁]
  · unfold Database.insertUser
    rw [hraw₂]

/-- Witness for `insertUser_last_write_wins`: upserting user 1 of
`sampleStorage` twice leaves a single row for id 1 with the second values. -/
theorem insertUser_last_write_wins_witness :
    sampleStorage.users.Pairwise (fun u v => u.id ≠ v.id) ∧
    ∃ s₁ s₂, Database.insertUser sampleStorage ⟨1, "ally", "av2"⟩ "tk2" = .ok s₁ ∧
      Database.insertUser s₁ ⟨1, "amy", "av3"⟩ "tk3" = .ok s₂ ∧
      s₂.users.filter (fun u => u.id == 1) = [⟨1, "amy", "av3", "tk3"⟩] :=
  ⟨by decide,
    insertUser_last_write_wins sampleStorage 1 "ally" "av2" "tk2" "amy" "av3" "tk3"
      (by decide) (by decide) (by decide)⟩

theorem activityLe_total (a b : Option Nat) :
    activityLe a b = true ∨ activityLe b a = true := by
  cases a <;> cases b <;> simp [activityLe]
  omega

theorem activityLe_trans {a b c : Option Nat} (h₁ : activityLe a b = true)
    (h₂ : activityLe b c = true) : activityLe a c = true := by
  cases a <;> cases b <;> cases c <;> simp [activityLe] at *
  omega

theorem mem_insertByActivity {x y : RoomActivityRow} {l : List RoomActivityRow} :
    y ∈ insertByActivity x l ↔ y = x ∨ y ∈ l := by
  induction l with
  | nil => simp [insertByActivity]
  | cons a t ih =>
    unfold insertByActivity
    by_cases h : activityLe x.last_message_at a.last_message_at = true
    · rw [if_pos h]
      simp [List.mem_cons]
    · rw [if_neg h]
      rw [List.mem_cons, ih, List.mem_cons]
      tauto

theorem pairwise_insertByActivity {x : RoomActivityRow} {l : List RoomActivityRow}
    (h : l.Pairwise (fun a b => activityLe a.last_message_at b.last_message_at = true)) :
    (insertByActivity x l).Pairwise
      (fun a b => activityLe a.last_message_at b.last_message_at = true) := by
  induction l with
  | nil =>
    unfold insertByActivity
    exact List.pairwise_singleton _ _
  | cons a t ih =>
    rw [List.pairwise_cons] at h
    unfold insertByActivity
    by_cases hle : activityLe x.last_message_at a.last_message_at = true
    · rw [if_pos hle, List.pairwise_cons]
      constructor
      · intro z hz
        rcases List.mem_cons.mp hz with rfl | hz'
        · exact hle
        · exact activityLe_trans hle (h.1 z hz')
      · rw [List.pairwise_cons]
        exact h
    · rw [if_neg hle, List.pairwise_cons]
      constructor
      · intro z hz
        rcases mem_insertByActivity.mp hz with rfl | hz'
        · rcases activityLe_total z.last_message_at a.last_message_at with h' | h'
          · exact absurd h' hle
          · exact h'
        · exact h.1 z hz'
      · exact ih h.2

theorem pairwise_sortByActivity (l : List RoomActivityRow) :
    (sortByActivity l).Pairwise
      (fun a b => activityLe a.last_message_at b.last_message_at = true) := by
  induction l with
  | nil => exact List.Pairwise.nil
  | cons a t ih => exact pairwise_insertByActivity ih

/-- Claim C8: `getRooms` lists a room whose latest message is at `t₁` before
every room whose latest message is at `t₂ < t₁`, and every room with no
messages comes after all rooms that have at least one message. -/
theorem listRooms_activity_order (s : Storage) :
    (∀ (i j t₁ t₂ : Nat) (a b : RoomListing),
      (Database.getRooms s)[i]? = some a → (Database.getRooms s)[j]? = some b →
      a.lastMessageAt = some t₁ → b.lastMessageAt = some t₂ → t₂ < t₁ → i < j) ∧
    (∀ (i j t : Nat) (a b : RoomListing),
      (Database.getRooms s)[i]? = some a → (Database.getRooms s)[j]? = some b →
      a.lastMessageAt = none → b.lastMessageAt = some t → j < i) := by
  have hpw : (Database.getRooms s).Pairwise
      (fun a b => activityLe a.lastMessageAt b.lastMessageAt = true) := by
    unfold Database.getRooms
    rw [List.pairwise_map]
    exact pairwise_sortByActivity _
  have key : ∀ (i j : Nat) (a b : RoomListing), (Database.getRooms s)[i]? = some a →
      (Database.getRooms s)[j]? = some b → i < j →
      activityLe a.lastMessageAt b.lastMessageAt = true := by
    intro i j a b ha hb hij
    rcases List.getElem?_eq_some_iff.mp ha with ⟨hi, hia⟩
    rcases List.getElem?_eq_some_iff.mp hb with ⟨hj, hjb⟩
    have hg := List.pairwise_iff_getElem.mp hpw i j hi hj hij
    rw [hia, hjb] at hg
    exact hg
  constructor
  · intro i j t₁ t₂ a b ha hb ht₁ ht₂ hlt
    rcases Nat.lt_trichotomy i j with h | h | h
    · exact h
    · exfalso
      subst h
      rw [ha] at hb
      injection hb with hb
      subst hb
      rw [ht₁] at ht₂
      injection ht₂ with ht₂
      omega
    · exfalso
      have hba := key j i b a hb ha h
      rw [ht₁, ht₂] at hba
      simp [activityLe] at hba
      omega
  · intro i j t a b ha hb hnone hsome
    rcases Nat.lt_trichotomy j i with h | h | h
    · exact h
    · exfalso
      subst h
      rw [ha] at hb
      injection hb with hb
      subst hb
      rw [hnone] at hsome
      exact Option.noConfusion hsome
    · exfalso
      have hab := key i j a b ha hb h
      rw [hnone, hsome] at hab
      simp [activityLe] at hab

/-- Witness for `listRooms_activity_order` at `busyStorage`: the room with the
latest message (time 5) comes first, the room with an older message (time 3)
second, and the message-less room last. -/
theorem listRooms_activity_order_witness :
    (Database.getRooms busyStorage)[0]? = some ⟨1, "general", some 5⟩ ∧
    (Database.getRooms busyStorage)[1]? = some ⟨0, "Lobby", some 3⟩ ∧
    (Database.getRooms busyStorage)[2]? = some ⟨2, "quiet", none⟩ ∧
    (0 : Nat) < 1 ∧ (1 : Nat) < 2 :=
  ⟨rfl, rfl, rfl,
    (listRooms_activity_order busyStorage).1 0 1 5 3 ⟨1, "general", some 5⟩
      ⟨0, "Lobby", some 3⟩ rfl rfl rfl rfl (by omega),
    (listRooms_activity_order busyStorage).2 2 1 3 ⟨2, "quiet", none⟩
      ⟨0, "Lobby", some 3⟩ rfl rfl rfl rfl⟩

theorem upsertUserRaw_ok_rooms {s s' : Storage} {row : UserRow}
    (h : upsertUserRaw s row = .ok s') : s'.rooms = s.rooms := by
  unfold upsertUserRaw at h
  split_ifs at h
  · rw [Except.ok.injEq] at h
    rw [← h]
  · rw [Except.ok.injEq] at h
    rw [← h]

theorem insertMessageRaw_ok_fields {s s' : Storage} {text : String} {roomId userId : Nat}
    (h : insertMessageRaw s text roomId userId = .ok s') :
    s'.rooms = s.rooms ∧ s'.users = s.users ∧
    s'.messages = s.messages ++ [⟨s.nextMsgId, s.clock, text, userId, roomId⟩] ∧
    s'.clock = s.clock + 1 := by
  unfold insertMessageRaw at h
  split_ifs at h
  rw [Except.ok.injEq] at h
  rw [← h]
  exact ⟨rfl, rfl, rfl, rfl⟩

theorem selectRoomsByName_applyOp {s : Storage} {name : String} {r : RoomRow}
    {l : List RoomRow} (h : selectRoomsByName s name = r :: l) (op : Op) :
    selectRoomsByName (applyOp s op) name = r :: l := by
  have hmem : r ∈ selectRoomsByName s name := by
    rw [h]
    exact List.mem_cons_self _ _
  have hne : (s.rooms.any fun x => x.name == name) = true := by
    rw [List.any_eq_true]
    exact ⟨r, (List.mem_filter.mp hmem).1, (List.mem_filter.mp hmem).2⟩
  cases op with
  | insertRoom n p =>
    by_cases hdup : (s.rooms.any fun x => x.name == n) = true
    · have hraw : insertRoomRaw s n p = .error
          ⟨"23505", "duplicate key value violates unique constraint rooms_name_key"⟩ := by
        unfold insertRoomRaw
        rw [if_pos hdup]
      have happ : applyOp s (.insertRoom n p) = s := by
        show (match insertRoomRaw s n p with
          | .ok s' => s'
          | .error _ => s) = s
        rw [hraw]
      rw [happ]
      exact h
    · have hraw : insertRoomRaw s n p = .ok
          { s with rooms := s.rooms ++ [⟨s.nextRoomId, s.clock, n, p⟩],
                   nextRoomId := s.nextRoomId + 1, clock := s.clock + 1 } := by
        unfold insertRoomRaw
        rw [if_neg hdup]
      have happ : applyOp s (.insertRoom n p) =
          { s with rooms := s.rooms ++ [⟨s.nextRoomId, s.clock, n, p⟩],
                   nextRoomId := s.nextRoomId + 1, clock := s.clock + 1 } := by
        show (match insertRoomRaw s n p with
          | .ok s' => s'
          | .error _ => s) = _
        rw [hraw]
      rw [happ]
      have hnn : (n == name) = false := by
        rcases Bool.eq_false_or_eq_true (n == name) with hb | hb
        · exfalso
          rw [beq_iff_eq] at hb
          rw [hb] at hdup
          exact hdup hne
        · exact hb
      show List.filter (fun x => x.name == name)
        (s.rooms ++ [⟨s.nextRoomId, s.clock, n, p⟩]) = r :: l
      rw [List.filter_append, List.filter_cons_of_neg (by simp [hnn]),
        List.filter_nil, List.append_nil]
      exact h
  | upsertUser row =>
    have hrooms : (applyOp s (.upsertUser row)).rooms = s.rooms := by
      show (match upsertUserRaw s row with
        | .ok s' => s'
        | .error _ => s).rooms = s.rooms
      cases hu : upsertUserRaw s row with
      | ok s' => exact upsertUserRaw_ok_rooms hu
      | error e => rfl
    unfold selectRoomsByName at h ⊢
    rw [hrooms]
    exact h
  | insertMessage text roomId userId =>
    have hrooms : (applyOp s (.insertMessage text roomId userId)).rooms = s.rooms := by
      show (match insertMessageRaw s text roomId userId with
        | .error _ => s
        | .ok s' => s').rooms = s.rooms
      cases hm : insertMessageRaw s text roomId userId with
      | ok s' => exact (insertMessageRaw_ok_fields hm).1
      | error e => rfl
    unfold selectRoomsByName at h ⊢
    rw [hrooms]
    exact h

theorem selectRoomsByName_applyOps {s : Storage} {name : String} {r : RoomRow}
    {l : List RoomRow} (h : selectRoomsByName s name = r :: l) (ops : List Op) :
    selectRoomsByName (applyOps s ops) name = r :: l := by
  induction ops generalizing s with
  | nil => exact h
  | cons op t ih => exact ih (selectRoomsByName_applyOp h op)

theorem ensureRoom_at_existing {t : Storage} {name : String} {r : RoomRow}
    {l : List RoomRow} (p₂ : String)
    (hsel : selectRoomsByName t name = r :: l) :
    Database.ensureRoom t name p₂ = .ok (some r.id, t) := by
  have hmem : r ∈ selectRoomsByName t name := by
    rw [hsel]
    exact List.mem_cons_self _ _
  have hdup : (t.rooms.any fun x => x.name == name) = true := by
    rw [List.any_eq_true]
    exact ⟨r, (List.mem_filter.mp hmem).1, (List.mem_filter.mp hmem).2⟩
  have hraw : insertRoomRaw t name (some p₂) =
      .error ⟨"23505", "duplicate key value violates unique constraint rooms_name_key"⟩ := by
    unfold insertRoomRaw
    rw [if_pos hdup]
  unfold Database.ensureRoom
  rw [hraw]
  show (if ("23505" : String) ≠ "23505" then
      Except.error (JsError.thrown
        "duplicate key value violates unique constraint rooms_name_key")
    else ensureRoomReadBack t name) = Except.ok (some r.id, t)
  rw [if_neg (by simp)]
  unfold ensureRoomReadBack
  rw [hsel]

/-- Claim C1: concurrent `ensureRoom` calls for one name converge.  Each call
is its atomic insert statement followed, after arbitrary interleaved writes
`ops` by other callers, by its read-back; starting from any state whose room
names are unique there is a single id `i` such that after the insert statement
every read-back returns `some i`, exactly one room row with that name exists,
and a whole `ensureRoom` call executed at any later point also returns
`some i`. -/
theorem ensureRoom_converges (s₀ : Storage) (name prompt : String)
    (hU : RoomsUnique s₀) :
    ∃ i : Nat, ∀ (ops : List Op) (p₂ : String),
      roomIdOf (applyOps (applyOp s₀ (.insertRoom name (some prompt))) ops) name = some i ∧
      (selectRoomsByName (applyOps (applyOp s₀ (.insertRoom name (some prompt))) ops) name).length = 1 ∧
      Database.ensureRoom (applyOps (applyOp s₀ (.insertRoom name (some prompt))) ops) name p₂ =
        .ok (some i, applyOps (applyOp s₀ (.insertRoom name (some prompt))) ops) := by
  have hsel : ∃ r : RoomRow,
      selectRoomsByName (applyOp s₀ (.insertRoom name (some prompt))) name = [r] := by
    by_cases hdup : (s₀.rooms.any fun x => x.name == name) = true
    · have hraw : insertRoomRaw s₀ name (some prompt) = .error
          ⟨"23505", "duplicate key value violates unique constraint rooms_name_key"⟩ := by
        unfold insertRoomRaw
        rw [if_pos hdup]
      have happ : applyOp s₀ (.insertRoom name (some prompt)) = s₀ := by
        show (match insertRoomRaw s₀ name (some prompt) with
          | .ok s' => s'
          | .error _ => s₀) = s₀
        rw [hraw]
      rw [happ]
      have hle : (selectRoomsByName s₀ name).length ≤ 1 := by
        apply length_filter_le_one
        refine List.Pairwise.imp ?_ hU
        intro a b hab hp
        rcases hp with ⟨hpa, hpb⟩
        rw [beq_iff_eq] at hpa hpb
        exact hab (by rw [hpa, hpb])
      rcases List.any_eq_true.mp hdup with ⟨w, hw, hpw⟩
      exact ⟨w, filter_eq_singleton_of_mem hle hw hpw⟩
    · have hraw : insertRoomRaw s₀ name (some prompt) = .ok
          { s₀ with rooms := s₀.rooms ++ [⟨s₀.nextRoomId, s₀.clock, name, some prompt⟩],
                    nextRoomId := s₀.nextRoomId + 1, clock := s₀.clock + 1 } := by
        unfold insertRoomRaw
        rw [if_neg hdup]
      have happ : applyOp s₀ (.insertRoom name (some prompt)) =
          { s₀ with rooms := s₀.rooms ++ [⟨s₀.nextRoomId, s₀.clock, name, some prompt⟩],
                    nextRoomId := s₀.nextRoomId + 1, clock := s₀.clock + 1 } := by
        show (match insertRoomRaw s₀ name (some prompt) with
          | .ok s' => s'
          | .error _ => s₀) = _
        rw [hraw]
      rw [happ]
      refine ⟨⟨s₀.nextRoomId, s₀.clock, name, some prompt⟩, ?_⟩
      rw [List.any_eq_true] at hdup
      push_neg at hdup
      have h0 : s₀.rooms.filter (fun x => x.name == name) = [] := by
        rw [List.filter_eq_nil_iff]
        exact hdup
      show List.filter (fun x => x.name == name)
        (s₀.rooms ++ [⟨s₀.nextRoomId, s₀.clock, name, some prompt⟩]) = _
      rw [List.filter_append, h0, List.nil_append,
        List.filter_cons_of_pos (by simp), List.filter_nil]
  obtain ⟨r, hr⟩ := hsel
  refine ⟨r.id, ?_⟩
  intro ops p₂
  have hsel_t := selectRoomsByName_applyOps hr ops
  refine ⟨?_, ?_, ?_⟩
  · unfold roomIdOf
    rw [hsel_t]
  · rw [hsel_t]
    rfl
  · exact ensureRoom_at_existing p₂ hsel_t

/-- Witness for `ensureRoom_converges` at `initStorage` for a fresh room
name. -/
theorem ensureRoom_converges_witness :
    RoomsUnique initStorage ∧
    ∃ i : Nat, ∀ (ops : List Op) (p₂ : String),
      roomIdOf (applyOps (applyOp initStorage (.insertRoom "general" (some "be nice"))) ops)
        "general" = some i ∧
      (selectRoomsByName
        (applyOps (applyOp initStorage (.insertRoom "general" (some "be nice"))) ops)
        "general").length = 1 ∧
      Database.ensureRoom
        (applyOps (applyOp initStorage (.insertRoom "general" (some "be nice"))) ops)
        "general" p₂ =
        .ok (some i,
          applyOps (applyOp initStorage (.insertRoom "general" (some "be nice"))) ops) :=
  ⟨by simp [RoomsUnique, initStorage],
    ensureRoom_converges initStorage "general" "be nice"
      (by simp [RoomsUnique, initStorage])⟩

theorem insertMessage_shape (s : Storage) (text : String) (R uid : Nat)
    (hR : (s.rooms.any fun r => r.id == R) = true)
    (hu : (s.users.any fun u => u.id == uid) = true) :
    Database.insertMessage s text R uid =
      { s with messages := s.messages ++ [⟨s.nextMsgId, s.clock, text, uid, R⟩],
               nextMsgId := s.nextMsgId + 1, clock := s.clock + 1 } := by
  have hraw : insertMessageRaw s text R uid = .ok
      { s with messages := s.messages ++ [⟨s.nextMsgId, s.clock, text, uid, R⟩],
               nextMsgId := s.nextMsgId + 1, clock := s.clock + 1 } := by
    unfold insertMessageRaw
    rw [if_neg (by rw [hR]; simp), if_neg (by rw [hu]; simp)]
  unfold Database.insertMessage
  rw [hraw]

theorem postMessages_spec (posts : List (String × Nat)) (s : Storage) (R : Nat)
    (hR : (s.rooms.any fun r => r.id == R) = true)
    (hA : ∀ p ∈ posts, (s.users.any fun u => u.id == p.2) = true) :
    (postMessages s R posts).users = s.users ∧
    (postMessages s R posts).rooms = s.rooms ∧
    (MessagesOrdered s → MessagesOrdered (postMessages s R posts)) ∧
    ∃ rows : List MessageRow,
      selectMessagesByRoom (postMessages s R posts) R = selectMessagesByRoom s R ++ rows ∧
      rows.map (fun m => m.message) = posts.map (fun p => p.1) ∧
      rows.map (fun m => m.sender) = posts.map (fun p => p.2) := by
  induction posts generalizing s with
  | nil =>
    exact ⟨rfl, rfl, fun h => h, [], (List.append_nil _).symm, rfl, rfl⟩
  | cons p t ih =>
    have hstep := insertMessage_shape s p.1 R p.2 hR (hA p (List.mem_cons_self _ _))
    have husers : (Database.insertMessage s p.1 R p.2).users = s.users := by rw [hstep]
    have hrooms : (Database.insertMessage s p.1 R p.2).rooms = s.rooms := by rw [hstep]
    have hR₁ : ((Database.insertMessage s p.1 R p.2).rooms.any fun r => r.id == R) = true := by
      rw [hrooms]
      exact hR
    have hA₁ : ∀ q ∈ t,
        ((Database.insertMessage s p.1 R p.2).users.any fun u => u.id == q.2) = true := by
      intro q hq
      rw [husers]
      exact hA q (List.mem_cons_of_mem _ hq)
    obtain ⟨hu', hr', hord', rows, hsel, hmsg, hsend⟩ :=
      ih (Database.insertMessage s p.1 R p.2) hR₁ hA₁
    have hchain : postMessages s R (p :: t) =
        postMessages (Database.insertMessage s p.1 R p.2) R t := rfl
    rw [hchain]
    have hstepSel : selectMessagesByRoom (Database.insertMessage s p.1 R p.2) R =
        selectMessagesByRoom s R ++ [⟨s.nextMsgId, s.clock, p.1, p.2, R⟩] := by
      unfold selectMessagesByRoom
      rw [hstep]
      show (s.messages ++ [(⟨s.nextMsgId, s.clock, p.1, p.2, R⟩ : MessageRow)]).filter
        (fun m => m.room == R) = _
      rw [List.filter_append, List.filter_cons_of_pos (by simp), List.filter_nil]
    refine ⟨by rw [hu', husers], by rw [hr', hrooms], ?_,
      (⟨s.nextMsgId, s.clock, p.1, p.2, R⟩ : MessageRow) :: rows, ?_, ?_, ?_⟩
    · intro hord
      apply hord'
      constructor
      · rw [hstep]
        show (s.messages ++ [(⟨s.nextMsgId, s.clock, p.1, p.2, R⟩ : MessageRow)]).Pairwise
          (fun a b => a.created_at ≤ b.created_at)
        rw [List.pairwise_append]
        refine ⟨hord.1, List.pairwise_singleton _ _, ?_⟩
        intro a ha b hb
        simp only [List.mem_singleton] at hb
        rw [hb]
        exact Nat.le_of_lt (hord.2 a ha)
      · rw [hstep]
        show ∀ m ∈ s.messages ++ [(⟨s.nextMsgId, s.clock, p.1, p.2, R⟩ : MessageRow)],
          m.created_at < s.clock + 1
        intro m hm
        rcases List.mem_append.mp hm with h | h
        · exact Nat.lt_succ_of_lt (hord.2 m h)
        · simp only [List.mem_singleton] at h
          rw [h]
          exact Nat.lt_succ_self _
    · rw [hsel, hstepSel, List.append_assoc]
      rfl
    · rw [List.map_cons, List.map_cons, hmsg]
    · rw [List.map_cons, List.map_cons, hsend]

theorem joinAll_spec (s : Storage) (rows : List MessageRow)
    (h : ∀ m ∈ rows, ∃ u, s.users.find? (fun u => u.id == m.sender) = some u) :
    ∃ l, joinAll s rows = some l ∧
      l.map (fun v => v.message) = rows.map (fun m => m.message) ∧
      l.map (fun v => v.createdAt) = rows.map (fun m => m.created_at) ∧
      ∀ (k : Nat) (v : MessageView) (m : MessageRow),
        l[k]? = some v → rows[k]? = some m →
        ∃ u, s.users.find? (fun x => x.id == m.sender) = some u ∧
          v.sender = ⟨u.username, u.avatar_url⟩ := by
  induction rows with
  | nil =>
    refine ⟨[], rfl, rfl, rfl, ?_⟩
    intro k v m hv hm
    simp at hv
  | cons m ms ih =>
    obtain ⟨u, hu⟩ := h m (List.mem_cons_self _ _)
    obtain ⟨l, hl, hmsg, hts, hidx⟩ := ih (fun m' hm' => h m' (List.mem_cons_of_mem _ hm'))
    refine ⟨⟨m.message, ⟨u.username, u.avatar_url⟩, m.created_at⟩ :: l, ?_, ?_, ?_, ?_⟩
    · unfold joinAll
      rw [hu, hl]
    · rw [List.map_cons, List.map_cons, hmsg]
    · rw [List.map_cons, List.map_cons, hts]
    · intro k v m' hv hm'
      cases k with
      | zero =>
        simp only [List.getElem?_cons_zero, Option.some.injEq] at hv hm'
        rw [← hv, ← hm']
        exact ⟨u, hu, rfl⟩
      | succ k =>
        simp only [List.getElem?_cons_succ] at hv hm'
        exact hidx k v m' hv hm'

/-- Claim C3: after any sequence of `insertMessage` calls targeting room `R`
(starting from a state where `R` has no messages, `R` exists and every author
exists), `getRoomMessages R` succeeds and returns exactly those messages, in
order, with non-decreasing `createdAt`, each paired with its author's `name`
and `avatarUrl`. -/
theorem getRoomMessages_of_posts (s₀ : Storage) (R : Nat)
    (posts : List (String × Nat))
    (hWF : MessagesOrdered s₀)
    (hempty : selectMessagesByRoom s₀ R = [])
    (hR : (s₀.rooms.any fun r => r.id == R) = true)
    (hA : ∀ p ∈ posts, (s₀.users.any fun u => u.id == p.2) = true) :
    ∃ l, Database.getRoomMessages (postMessages s₀ R posts) R = .ok l ∧
      l.map (fun v => v.message) = posts.map (fun p => p.1) ∧
      l.Pairwise (fun a b => a.createdAt ≤ b.createdAt) ∧
      ∀ (k : Nat) (v : MessageView) (p : String × Nat),
        l[k]? = some v → posts[k]? = some p →
        ∃ u, u ∈ s₀.users ∧ u.id = p.2 ∧
          v.sender = ⟨u.username, u.avatar_url⟩ := by
  obtain ⟨husers, hrooms, hord, rows, hsel, hmsg, hsend⟩ := postMessages_spec posts s₀ R hR hA
  rw [hempty, List.nil_append] at hsel
  have hfind : ∀ m ∈ rows,
      ∃ u, (postMessages s₀ R posts).users.find? (fun u => u.id == m.sender) = some u := by
    intro m hm
    have hmem : m.sender ∈ rows.map (fun m => m.sender) := List.mem_map_of_mem _ hm
    rw [hsend] at hmem
    rcases List.mem_map.mp hmem with ⟨p, hp, hpe⟩
    rcases List.any_eq_true.mp (hA p hp) with ⟨u, hu, huid⟩
    rw [husers]
    have hs : (s₀.users.find? (fun u => u.id == p.2)).isSome := by
      rw [List.find?_isSome]
      exact ⟨u, hu, huid⟩
    rw [hpe] at hs
    rcases Option.isSome_iff_exists.mp hs with ⟨w, hw⟩
    exact ⟨w, hw⟩
  obtain ⟨l, hjoin, hlmsg, hlts, hlidx⟩ := joinAll_spec (postMessages s₀ R posts) rows hfind
  refine ⟨l, ?_, ?_, ?_, ?_⟩
  · unfold Database.getRoomMessages
    rw [hsel, hjoin]
  · rw [hlmsg, hmsg]
  · have h₁ : MessagesOrdered (postMessages s₀ R posts) := hord hWF
    have h₂ : rows.Pairwise (fun a b => a.created_at ≤ b.created_at) := by
      have hf := List.Pairwise.filter (fun m => m.room == R) h₁.1
      unfold selectMessagesByRoom at hsel
      rw [hsel] at hf
      exact hf
    have h₃ : (l.map (fun v => v.createdAt)).Pairwise (fun a b => a ≤ b) := by
      rw [hlts, List.pairwise_map]
      exact h₂
    rw [List.pairwise_map] at h₃
    exact h₃
  · intro k v p hv hp
    have hmk : rows[k]?.map (fun m => m.sender) = some p.2 := by
      rw [← List.getElem?_map, hsend, List.getElem?_map, hp]
      exact rfl
    rcases Option.map_eq_some'.mp hmk with ⟨m, hm, hms⟩
    obtain ⟨u, hu, hvs⟩ := hlidx k v m hv hm
    refine ⟨u, ?_, ?_, hvs⟩
    · have hmem := List.mem_of_find?_eq_some hu
      rw [husers] at hmem
      exact hmem
    · have hpred := List.find?_some hu
      rw [beq_iff_eq] at hpred
      rw [hpred]
      exact hms

/-- Witness for `getRoomMessages_of_posts`: two messages posted to room 1 of
`sampleStorage`. -/
theorem getRoomMessages_of_posts_witness :
    MessagesOrdered sampleStorage ∧
    selectMessagesByRoom sampleStorage 1 = [] ∧
    (sampleStorage.rooms.any fun r => r.id == 1) = true ∧
    (∀ p ∈ [("hi", 1), ("yo", 2)], (sampleStorage.users.any fun u => u.id == p.2) = true) ∧
    ∃ l, Database.getRoomMessages (postMessages sampleStorage 1 [("hi", 1), ("yo", 2)]) 1 = .ok l ∧
      l.map (fun v => v.message) = [("hi", 1), ("yo", 2)].map (fun p => p.1) ∧
      l.Pairwise (fun a b => a.createdAt ≤ b.createdAt) ∧
      ∀ (k : Nat) (v : MessageView) (p : String × Nat),
        l[k]? = some v → [("hi", 1), ("yo", 2)][k]? = some p →
        ∃ u, u ∈ sampleStorage.users ∧ u.id = p.2 ∧
          v.sender = ⟨u.username, u.avatar_url⟩ := by
  have hMO : MessagesOrdered sampleStorage :=
    ⟨List.Pairwise.nil, by intro m hm; exact absurd hm (List.not_mem_nil m)⟩
  exact ⟨hMO, rfl, rfl, by decide,
    getRoomMessages_of_posts sampleStorage 1 [("hi", 1), ("yo", 2)] hMO rfl rfl (by decide)⟩

end JPT
